import Mathlib

/-!
Verification of the batch-download queue of `src/server/services/downloadQueue.js`.

The JavaScript module keeps two in-memory `Map`s keyed by task id
(`downloadQueue` and `completedFiles`), creates tasks (`createTask`),
drives them through a sequential download loop (`processQueue`), parses
format specifiers and builds tool arguments (`downloadFile`), and exposes
`getTaskStatus`, `getNextCompletedFile`, `getFileInfo` and `cleanupTask`.

The shallow embedding below renders each of those functions as an
executable Lean definition.  External effects appear as explicit inputs:
the per-item fetch result is an oracle `outcomes : Nat → FetchOutcome`
(the resolution of `downloadFile`'s promise for each item index), the
clock and random draw feeding task-id generation are plain arguments, and
the filesystem touched by `cleanupTask` is a `FileSystem` value whose
`unlinkSync` can fail on an existing path (as Node's `fs.unlinkSync`
does, e.g. with `EPERM`/`EACCES`).
-/

namespace DQ

/-- Resolution of one `downloadFile(url, format)` call for one work item:
the promise either fulfills with `{filename, filepath}` or rejects with an
error message. -/
inductive FetchOutcome where
  | success (filename : String) (filepath : String)
  | failure (msg : String)
deriving DecidableEq

/-- One element of `task.items` as built by `createTask` and mutated by
`processQueue` (downloadQueue.js lines 22-29, 49-74). -/
structure WorkItem where
  url : String
  format : String
  status : String
  filename : Option String
  filepath : Option String
  error : Option String
deriving DecidableEq

/-- One task record stored in the `downloadQueue` map
(downloadQueue.js lines 21-32). -/
structure Task where
  items : List WorkItem
  currentIndex : Nat
  status : String
deriving DecidableEq

/-- One entry of the per-task `completedFiles` queue, pushed at
downloadQueue.js lines 60-64. -/
structure CompletedFile where
  index : Nat
  filename : String
  filepath : String
deriving DecidableEq

/-! ### The two `Map`s

JavaScript `Map` get/set/delete, modelled on association lists.  Keys in
the program are task-id strings and are unique, so replace-first /
remove-all semantics coincide with `Map` semantics. -/

/-- `Map.get`: value of the first binding of `k`, if any. -/
def mget {α : Type} : List (String × α) → String → Option α
  | [], _ => none
  | p :: rest, k => if p.1 == k then some p.2 else mget rest k

/-- `Map.set`: replace the binding of `k` in place, or append it. -/
def mset {α : Type} : List (String × α) → String → α → List (String × α)
  | [], k, v => [(k, v)]
  | p :: rest, k, v => if p.1 == k then (k, v) :: rest else p :: mset rest k v

/-- `Map.delete`: remove the binding of `k`. -/
def mdel {α : Type} : List (String × α) → String → List (String × α)
  | [], _ => []
  | p :: rest, k => if p.1 == k then mdel rest k else p :: mdel rest k

/-- The module-level state: `downloadQueue` and `completedFiles`
(downloadQueue.js lines 12-13). -/
structure Store where
  downloadQueue : List (String × Task)
  completedFiles : List (String × List CompletedFile)
deriving DecidableEq

/-! ### Format parsing and yt-dlp argument construction

Embedding of the format-handling part of `downloadFile`
(downloadQueue.js lines 89-113): `format.includes('--')`,
`format.split('--')`, and the argument array.  Strings are handled at the
character-list level so that the split can be reasoned about. -/

/-- JS `s.includes('--')` on the character list of `s`. -/
def containsSep : List Char → Bool
  | [] => false
  | [_] => false
  | c1 :: c2 :: rest => ((c1 == '-') && (c2 == '-')) || containsSep (c2 :: rest)

/-- Worker for JS `s.split('--')`: scans for the separator, accumulating
the current part in reverse. -/
def splitSepAux : List Char → List Char → List (List Char)
  | [], acc => [acc.reverse]
  | [c], acc => [(c :: acc).reverse]
  | c1 :: c2 :: rest, acc =>
    if (c1 == '-') && (c2 == '-') then acc.reverse :: splitSepAux rest []
    else splitSepAux (c2 :: rest) (c1 :: acc)

/-- JS `s.split('--')` on the character list of `s`. -/
def splitSep (s : List Char) : List (List Char) := splitSepAux s []

/-- Format parsing of `downloadFile` (downloadQueue.js lines 90-97):
`actualFormat` stays the whole string and `audioFormat` stays `null`
unless the string contains `--`, in which case `parts[0]` and `parts[1]`
are taken. -/
def parseFormat (format : List Char) : List Char × Option (List Char) :=
  if containsSep format then
    let parts := splitSep format
    (parts.headD [], parts[1]?)
  else (format, none)

/-- JS truthiness of `audioFormat` (`null` and `''` are falsy). -/
def truthyChars : Option (List Char) → Bool
  | none => false
  | some [] => false
  | some (_ :: _) => true

/-- The yt-dlp argument array built by `downloadFile`
(downloadQueue.js lines 100-113): base arguments, then the audio
extraction arguments when `audioFormat` is truthy, then the url. -/
def buildArgs (format url tempFile : List Char) : List (List Char) :=
  let pf := parseFormat format
  let base := ["-f".toList, pf.1, "-o".toList, tempFile ++ ".%(ext)s".toList,
    "--no-playlist".toList, "--no-warnings".toList]
  let audio :=
    if truthyChars pf.2 then
      ["-x".toList, "--audio-format".toList, pf.2.getD [], "--audio-quality".toList, "0".toList]
    else []
  base ++ audio ++ [url]

/-! ### Task creation and the processing loop -/

/-- One fresh work item, as built by `urls.map(...)` in `createTask`
(downloadQueue.js lines 22-29). -/
def mkWorkItem (format url : String) : WorkItem :=
  { url := url, format := format, status := "pending",
    filename := none, filepath := none, error := none }

/-- The task record stored by `createTask` before processing starts
(downloadQueue.js lines 21-32). -/
def initTask (urls : List String) (format : String) : Task :=
  { items := urls.map (mkWorkItem format), currentIndex := 0, status := "processing" }

/-- The store after `createTask` has filled both maps
(downloadQueue.js lines 21-34), before `processQueue` runs. -/
def createTask (st : Store) (taskId : String) (urls : List String) (format : String) : Store :=
  { downloadQueue := mset st.downloadQueue taskId (initTask urls format),
    completedFiles := mset st.completedFiles taskId [] }

/-- Settlement of one item from the `try`/`catch` of `processQueue`
(downloadQueue.js lines 53-71): on success status `completed` plus
`filename`/`filepath`, on failure status `error` plus the message. -/
def settleItem (it : WorkItem) (o : FetchOutcome) : WorkItem :=
  match o with
  | .success fn fp => { it with status := "completed", filename := some fn, filepath := some fp }
  | .failure msg => { it with status := "error", error := some msg }

/-- The descriptors pushed onto `completedFiles` for item `i`
(downloadQueue.js lines 60-64): one on success, none on failure. -/
def successDesc (i : Nat) (o : FetchOutcome) : List CompletedFile :=
  match o with
  | .success fn fp => [{ index := i, filename := fn, filepath := fp }]
  | .failure _ => []

/-- The `while` loop of `processQueue` (downloadQueue.js lines 49-77),
fuel-indexed for structural recursion; `processQueue` supplies exactly
the remaining-item count as fuel.  Each iteration marks
`items[currentIndex]` as `downloading`, settles it with the oracle's
outcome, pushes a descriptor on success, and advances `currentIndex`;
when the cursor reaches the end the task status becomes `completed`. -/
def processLoop (outcomes : Nat → FetchOutcome) :
    Nat → Task → List CompletedFile → Task × List CompletedFile
  | 0, t, q =>
    if t.currentIndex < t.items.length then (t, q)
    else ({ t with status := "completed" }, q)
  | fuel + 1, t, q =>
    if h : t.currentIndex < t.items.length then
      let i := t.currentIndex
      let it := t.items.get ⟨i, h⟩
      let it' := settleItem { it with status := "downloading" } (outcomes i)
      processLoop outcomes fuel
        { t with items := t.items.set i it', currentIndex := i + 1 }
        (q ++ successDesc i (outcomes i))
    else ({ t with status := "completed" }, q)

/-- `processQueue` run to completion on one task record and its
completed-file queue (downloadQueue.js lines 45-78). -/
def processQueue (outcomes : Nat → FetchOutcome) (t : Task) (q : List CompletedFile) :
    Task × List CompletedFile :=
  processLoop outcomes (t.items.length - t.currentIndex) t q

/-- Every task-and-queue state `processQueue` passes through, at the
mutation granularity of the source loop: the state after
`item.status = 'downloading'` (downloadQueue.js line 51), the state after
the item is settled and the cursor advanced (lines 53-73), and the final
state after `task.status = 'completed'` (line 76). -/
def processTrace (outcomes : Nat → FetchOutcome) :
    Nat → Task → List CompletedFile → List (Task × List CompletedFile)
  | 0, t, q =>
    if t.currentIndex < t.items.length then []
    else [({ t with status := "completed" }, q)]
  | fuel + 1, t, q =>
    if h : t.currentIndex < t.items.length then
      let i := t.currentIndex
      let it := t.items.get ⟨i, h⟩
      let tDown := { t with items := t.items.set i { it with status := "downloading" } }
      let it' := settleItem { it with status := "downloading" } (outcomes i)
      let tNext := { t with items := t.items.set i it', currentIndex := i + 1 }
      (tDown, q) :: (tNext, q ++ successDesc i (outcomes i)) ::
        processTrace outcomes fuel tNext (q ++ successDesc i (outcomes i))
    else [({ t with status := "completed" }, q)]

/-- All states of a task created from `urls`/`format`: the freshly
created record followed by every state of the processing loop. -/
def reachableStates (urls : List String) (format : String)
    (outcomes : Nat → FetchOutcome) : List (Task × List CompletedFile) :=
  (initTask urls format, []) :: processTrace outcomes urls.length (initTask urls format) []

/-! ### Lifecycle API -/

/-- Per-item projection returned by `getTaskStatus`
(downloadQueue.js lines 172-176). -/
structure ItemView where
  status : String
  filename : Option String
  error : Option String
deriving DecidableEq

/-- Snapshot returned by `getTaskStatus` (downloadQueue.js lines
167-177); the spec calls `completed` `completedCount` and `current`
`cursor`. -/
structure StatusSnapshot where
  status : String
  total : Nat
  completed : Nat
  current : Nat
  items : List ItemView
deriving DecidableEq

/-- `getTaskStatus` (downloadQueue.js lines 163-178): `null` for an
unknown id, otherwise a snapshot whose `completed` field is recomputed
from the items on every call. -/
def getTaskStatus (queue : List (String × Task)) (taskId : String) : Option StatusSnapshot :=
  match mget queue taskId with
  | none => none
  | some task =>
    some { status := task.status,
           total := task.items.length,
           completed := (task.items.filter (fun i => i.status == "completed")).length,
           current := task.currentIndex,
           items := task.items.map (fun i =>
             { status := i.status, filename := i.filename, error := i.error }) }

/-- `getNextCompletedFile` (downloadQueue.js lines 183-188): `null` when
the task is unknown or its queue is empty, otherwise `files.shift()` —
the head is removed and returned. -/
def getNextCompletedFile (completed : List (String × List CompletedFile)) (taskId : String) :
    Option CompletedFile × List (String × List CompletedFile) :=
  match mget completed taskId with
  | none => (none, completed)
  | some [] => (none, completed)
  | some (d :: rest) => (some d, mset completed taskId rest)

/-- Handle returned by `getFileInfo` (downloadQueue.js lines 200-203). -/
structure FileInfo where
  filename : Option String
  filepath : Option String
deriving DecidableEq

/-- `getFileInfo` (downloadQueue.js lines 193-204): `null` for an unknown
task, an absent index (negative or past the end — JS indexing yields
`undefined`, which is falsy), or an item whose status is not exactly
`completed`. -/
def getFileInfo (queue : List (String × Task)) (taskId : String) (index : Int) : Option FileInfo :=
  match mget queue taskId with
  | none => none
  | some task =>
    match (if 0 ≤ index then task.items[index.toNat]? else none) with
    | none => none
    | some item =>
      if item.status == "completed" then
        some { filename := item.filename, filepath := item.filepath }
      else none

/-! ### Cleanup and the filesystem -/

/-- The filesystem as `cleanupTask` sees it: the set of existing paths,
plus the paths on which `fs.unlinkSync` would fail even though the file
exists (Node's `unlinkSync` throws e.g. `EPERM`/`EACCES`/`EBUSY` on
existing files it cannot remove). -/
structure FileSystem where
  files : List String
  unlinkFails : List String
deriving DecidableEq

/-- `fs.existsSync(p)`. -/
def existsSync (fs : FileSystem) (p : String) : Bool := fs.files.contains p

/-- `fs.unlinkSync(p)`: throws `ENOENT` on a missing path, throws (here
`EPERM`) on a path it cannot remove, otherwise removes the path. -/
def unlinkSync (fs : FileSystem) (p : String) : Except String FileSystem :=
  if fs.files.contains p then
    if fs.unlinkFails.contains p then Except.error "EPERM"
    else Except.ok { fs with files := fs.files.filter (fun q => q != p) }
  else Except.error "ENOENT"

/-- The `task.items.forEach` body of `cleanupTask` (downloadQueue.js
lines 213-217), sequentially: `if (item.filepath && fs.existsSync(...))
fs.unlinkSync(...)`.  There is no `try`/`catch` in the source, so a
throwing `unlinkSync` aborts the iteration and propagates. -/
def unlinkItems (fs : FileSystem) : List WorkItem → Except String FileSystem
  | [] => Except.ok fs
  | it :: rest =>
    match it.filepath with
    | some p =>
      if (p != "") && existsSync fs p then
        match unlinkSync fs p with
        | Except.error e => Except.error e
        | Except.ok fs' => unlinkItems fs' rest
      else unlinkItems fs rest
    | none => unlinkItems fs rest

/-- `cleanupTask` (downloadQueue.js lines 209-221): when the task is
stored, first unlink its items' files (uncaught exceptions propagate and
skip the rest of the function); then delete the task from both maps. -/
def cleanupTask (st : Store) (fs : FileSystem) (taskId : String) :
    Except String (Store × FileSystem) :=
  match mget st.downloadQueue taskId with
  | some task =>
    match unlinkItems fs task.items with
    | Except.error e => Except.error e
    | Except.ok fs' =>
      Except.ok ({ downloadQueue := mdel st.downloadQueue taskId,
                   completedFiles := mdel st.completedFiles taskId }, fs')
  | none =>
    Except.ok ({ downloadQueue := mdel st.downloadQueue taskId,
                 completedFiles := mdel st.completedFiles taskId }, fs)

/-- Two `cleanupTask` calls in succession on the same id; an exception in
the first call propagates, as it does across two HTTP requests. -/
def cleanupTwice (st : Store) (fs : FileSystem) (taskId : String) :
    Except String (Store × FileSystem) :=
  match cleanupTask st fs taskId with
  | Except.error e => Except.error e
  | Except.ok (st', fs') => cleanupTask st' fs' taskId

/-! ### Task-id generation -/

/-- Decimal digit to character, for JS number-to-string coercion. -/
def digitChar : Nat → Char
  | 0 => '0' | 1 => '1' | 2 => '2' | 3 => '3' | 4 => '4'
  | 5 => '5' | 6 => '6' | 7 => '7' | 8 => '8' | 9 => '9'
  | _ => '*'

/-- Characters of the JS decimal rendering of a natural number
(`Date.now() + '-'` coerces the timestamp with `Number::toString`). -/
def decChars (n : Nat) : List Char :=
  if n = 0 then ['0'] else ((Nat.digits 10 n).map digitChar).reverse

/-- Alphabet of `Math.random().toString(36)`, from which the 9-character
suffix `substr(2, 9)` is drawn. -/
def base36Chars : List Char := "0123456789abcdefghijklmnopqrstuvwxyz".toList

/-- Task-id generation of `createTask` (downloadQueue.js line 19):
`Date.now() + '-' + Math.random().toString(36).substr(2, 9)`, as a
function of the observed clock value and random suffix. -/
def genTaskId (now : Nat) (rand : List Char) : String :=
  String.mk (decChars now ++ '-' :: rand)

/-! ### Lemmas about the map operations -/

theorem mget_mset_self {α : Type} (m : List (String × α)) (k : String) (v : α) :
    mget (mset m k v) k = some v := by
  induction m with
  | nil => simp [mset, mget]
  | cons p rest ih =>
    by_cases h : p.1 = k
    · simp [mset, mget, h]
    · simp [mset, mget, h, ih]

theorem mget_mset_ne {α : Type} (m : List (String × α)) (k k' : String) (v : α)
    (h : k' ≠ k) : mget (mset m k v) k' = mget m k' := by
  induction m with
  | nil => simp [mset, mget, Ne.symm h]
  | cons p rest ih =>
    by_cases hp : p.1 = k
    · simp [mset, mget, hp, Ne.symm h]
    · by_cases hp' : p.1 = k'
      · simp [mset, mget, hp, hp', h]
      · simp [mset, mget, hp, hp', ih]

theorem mget_mdel_self {α : Type} (m : List (String × α)) (k : String) :
    mget (mdel m k) k = none := by
  induction m with
  | nil => simp [mdel, mget]
  | cons p rest ih =>
    by_cases h : p.1 = k
    · simp [mdel, h, ih]
    · simp [mdel, mget, h, ih]

theorem mget_mdel_ne {α : Type} (m : List (String × α)) (k k' : String)
    (h : k' ≠ k) : mget (mdel m k) k' = mget m k' := by
  induction m with
  | nil => simp [mdel]
  | cons p rest ih =>
    by_cases hp : p.1 = k
    · have hp' : ¬p.1 = k' := by rw [hp]; exact Ne.symm h
      simp [mdel, mget, hp, hp', Ne.symm h, ih]
    · by_cases hp' : p.1 = k'
      · simp [mdel, mget, hp, hp', h, ih]
      · simp [mdel, mget, hp, hp', ih]

/-! ### Lemmas about format splitting -/

theorem containsSep_cons_of (c : Char) (xs : List Char) (h : containsSep xs = true) :
    containsSep (c :: xs) = true := by
  cases xs with
  | nil => exact absurd h (by simp [containsSep])
  | cons d rest =>
    show (((c == '-') && (d == '-')) || containsSep (d :: rest)) = true
    rw [h, Bool.or_true]

theorem containsSep_cons_false {c : Char} {xs : List Char}
    (h : containsSep (c :: xs) = false) : containsSep xs = false := by
  cases xs with
  | nil => rfl
  | cons d rest =>
    have h' : (((c == '-') && (d == '-')) || containsSep (d :: rest)) = false := h
    exact (Bool.or_eq_false_iff.mp h').2

theorem containsSep_append_sep (a b : List Char) :
    containsSep (a ++ '-' :: '-' :: b) = true := by
  induction a with
  | nil => rfl
  | cons c a' ih => exact containsSep_cons_of c _ ih

theorem splitSepAux_no_sep (s : List Char) :
    ∀ acc : List Char, containsSep s = false → splitSepAux s acc = [acc.reverse ++ s] := by
  induction s with
  | nil => intro acc _; simp [splitSepAux]
  | cons c s' ih =>
    intro acc h
    cases s' with
    | nil => simp [splitSepAux]
    | cons d rest =>
      have hcond : ((c == '-') && (d == '-')) = false :=
        (Bool.or_eq_false_iff.mp (h : (((c == '-') && (d == '-')) ||
          containsSep (d :: rest)) = false)).1
      show (if ((c == '-') && (d == '-')) = true then _ else splitSepAux (d :: rest) (c :: acc))
        = [acc.reverse ++ c :: d :: rest]
      rw [hcond]
      simp only [Bool.false_eq_true, if_false]
      rw [ih (c :: acc) (containsSep_cons_false h)]
      simp

theorem splitSepAux_sep (a : List Char) :
    ∀ (acc b : List Char), containsSep (a ++ ['-']) = false →
      splitSepAux (a ++ '-' :: '-' :: b) acc = (acc.reverse ++ a) :: splitSepAux b [] := by
  induction a with
  | nil => intro acc b _; simp [splitSepAux]
  | cons c a' ih =>
    intro acc b h
    cases a' with
    | nil =>
      have hc : (c == '-') = false := by
        have h' : (((c == '-') && ('-' == '-')) || containsSep ['-']) = false := h
        have := (Bool.or_eq_false_iff.mp h').1
        simpa using this
      show (if ((c == '-') && ('-' == '-')) = true then _
            else splitSepAux ('-' :: '-' :: b) (c :: acc)) = (acc.reverse ++ [c]) :: splitSepAux b []
      rw [hc]
      simp [splitSepAux]
    | cons d a'' =>
      have h' : (((c == '-') && (d == '-')) ||
          containsSep (d :: (a'' ++ ['-']))) = false := h
      have hcond : ((c == '-') && (d == '-')) = false := (Bool.or_eq_false_iff.mp h').1
      show (if ((c == '-') && (d == '-')) = true then _
            else splitSepAux (d :: (a'' ++ '-' :: '-' :: b)) (c :: acc))
        = (acc.reverse ++ c :: d :: a'') :: splitSepAux b []
      rw [hcond]
      simp only [Bool.false_eq_true, if_false]
      rw [← List.cons_append, ih (c :: acc) b (Bool.or_eq_false_iff.mp h').2]
      simp

theorem splitSep_no_sep (s : List Char) (h : containsSep s = false) :
    splitSep s = [s] := by
  rw [splitSep, splitSepAux_no_sep s [] h]; rfl

theorem splitSep_sep (a b : List Char) (h : containsSep (a ++ ['-']) = false) :
    splitSep (a ++ '-' :: '-' :: b) = a :: splitSep b := by
  rw [splitSep, splitSepAux_sep a [] b h]; rfl

theorem parseFormat_sep (a b : List Char) (ha : containsSep (a ++ ['-']) = false)
    (hb : containsSep b = false) : parseFormat (a ++ '-' :: '-' :: b) = (a, some b) := by
  rw [parseFormat, if_pos (containsSep_append_sep a b)]
  rw [splitSep_sep a b ha, splitSep_no_sep b hb]
  rfl

theorem parseFormat_no_sep (f : List Char) (h : containsSep f = false) :
    parseFormat f = (f, none) := by
  rw [parseFormat, h]
  simp

/-- C7: a format string containing the two-part separator `--` is split
into the selection spec before it and the transcode target after it
(`"bestaudio--m4a"` ↦ selector `"bestaudio"`, target `"m4a"`); a format
string without the separator is the whole selection spec with no
transcode target (`"best"` ↦ selector `"best"`, no target). -/
theorem c7_format_two_part_separator :
    (∀ a b : List Char, containsSep (a ++ ['-']) = false → containsSep b = false →
      parseFormat (a ++ '-' :: '-' :: b) = (a, some b)) ∧
    (∀ f : List Char, containsSep f = false → parseFormat f = (f, none)) ∧
    parseFormat "bestaudio--m4a".toList = ("bestaudio".toList, some "m4a".toList) ∧
    parseFormat "best".toList = ("best".toList, none) := by
  refine ⟨parseFormat_sep, parseFormat_no_sep, ?_, ?_⟩ <;> decide

/-- Witness for C7 at the spec's two scenario inputs. -/
theorem c7_witness :
    containsSep ("bestaudio".toList ++ ['-']) = false ∧
    containsSep "m4a".toList = false ∧
    parseFormat ("bestaudio".toList ++ '-' :: '-' :: "m4a".toList) =
      ("bestaudio".toList, some "m4a".toList) ∧
    containsSep "best".toList = false ∧
    parseFormat "best".toList = ("best".toList, none) :=
  ⟨by decide, by decide, c7_format_two_part_separator.1 _ _ (by decide) (by decide),
   by decide, c7_format_two_part_separator.2.1 _ (by decide)⟩

/-- C10: an empty part after the separator (`"best--"`) is a falsy
`audioFormat`, so no audio-extraction arguments are added; with more than
one separator (`"a--b--c"`) only `parts[0]` and `parts[1]` are used:
the selector is the text before the first `--`, the target the text
between the first and second `--`, and later parts are ignored. -/
theorem c10_format_edge_cases :
    (∀ a : List Char, containsSep (a ++ ['-']) = false →
      parseFormat (a ++ ['-', '-']) = (a, some []) ∧
      ∀ url tmp : List Char, buildArgs (a ++ ['-', '-']) url tmp =
        ["-f".toList, a, "-o".toList, tmp ++ ".%(ext)s".toList,
         "--no-playlist".toList, "--no-warnings".toList, url]) ∧
    (∀ a b r : List Char, containsSep (a ++ ['-']) = false →
      containsSep (b ++ ['-']) = false →
      parseFormat (a ++ '-' :: '-' :: (b ++ '-' :: '-' :: r)) = (a, some b)) ∧
    parseFormat "best--".toList = ("best".toList, some []) ∧
    parseFormat "a--b--c".toList = ("a".toList, some "b".toList) ∧
    buildArgs "best--".toList "u".toList "tmp".toList =
      ["-f".toList, "best".toList, "-o".toList, "tmp".toList ++ ".%(ext)s".toList,
       "--no-playlist".toList, "--no-warnings".toList, "u".toList] := by
  refine ⟨?_, ?_, by decide, by decide, by decide⟩
  · intro a ha
    have hp : parseFormat (a ++ ['-', '-']) = (a, some []) := parseFormat_sep a [] ha rfl
    refine ⟨hp, ?_⟩
    intro url tmp
    rw [buildArgs, hp]
    rfl
  · intro a b r ha hb
    rw [parseFormat, if_pos (containsSep_append_sep a _)]
    rw [splitSep_sep a _ ha, splitSep_sep b r hb]
    simp

/-- Witness for C10 at the spec-style edge inputs. -/
theorem c10_witness :
    containsSep ("best".toList ++ ['-']) = false ∧
    parseFormat ("best".toList ++ ['-', '-']) = ("best".toList, some []) ∧
    buildArgs ("best".toList ++ ['-', '-']) "u".toList "tmp".toList =
      ["-f".toList, "best".toList, "-o".toList, "tmp".toList ++ ".%(ext)s".toList,
       "--no-playlist".toList, "--no-warnings".toList, "u".toList] ∧
    parseFormat ("a".toList ++ '-' :: '-' :: ("b".toList ++ '-' :: '-' :: "c".toList)) =
      ("a".toList, some "b".toList) := by
  have h1 := c10_format_edge_cases.1 "best".toList (by decide)
  exact ⟨by decide, h1.1, h1.2 "u".toList "tmp".toList,
    c10_format_edge_cases.2.1 "a".toList "b".toList "c".toList (by decide) (by decide)⟩

/-! ### The processing loop, run to completion -/

/-- The descriptors `processQueue` pushes while processing items
`start, start+1, …, start+count-1`: one per successful item, in
processing order. -/
def descList (outcomes : Nat → FetchOutcome) : Nat → Nat → List CompletedFile
  | _, 0 => []
  | start, count + 1 =>
    successDesc start (outcomes start) ++ descList outcomes (start + 1) count

theorem processLoop_done (outcomes : Nat → FetchOutcome) (fuel : Nat) (t : Task)
    (q : List CompletedFile) (h : ¬t.currentIndex < t.items.length) :
    processLoop outcomes fuel t q = ({ t with status := "completed" }, q) := by
  cases fuel <;> simp only [processLoop, if_neg h, dif_neg h]

/-- The task after one iteration of the loop body: `items[currentIndex]`
marked `downloading`, settled from its outcome, cursor advanced. -/
def stepTask (outcomes : Nat → FetchOutcome) (t : Task)
    (h : t.currentIndex < t.items.length) : Task :=
  { t with
    items := t.items.set t.currentIndex
      (settleItem { t.items.get ⟨t.currentIndex, h⟩ with status := "downloading" }
        (outcomes t.currentIndex)),
    currentIndex := t.currentIndex + 1 }

theorem stepTask_items_length (outcomes : Nat → FetchOutcome) (t : Task)
    (h : t.currentIndex < t.items.length) :
    (stepTask outcomes t h).items.length = t.items.length := by
  simp [stepTask]

theorem stepTask_currentIndex (outcomes : Nat → FetchOutcome) (t : Task)
    (h : t.currentIndex < t.items.length) :
    (stepTask outcomes t h).currentIndex = t.currentIndex + 1 := rfl

theorem stepTask_items_ne (outcomes : Nat → FetchOutcome) (t : Task)
    (h : t.currentIndex < t.items.length) (i : Nat) (hi : t.currentIndex ≠ i) :
    (stepTask outcomes t h).items[i]? = t.items[i]? := by
  rw [stepTask]
  exact List.getElem?_set_ne hi

theorem stepTask_items_self (outcomes : Nat → FetchOutcome) (t : Task)
    (h : t.currentIndex < t.items.length) :
    (stepTask outcomes t h).items[t.currentIndex]? =
      some (settleItem { t.items.get ⟨t.currentIndex, h⟩ with status := "downloading" }
        (outcomes t.currentIndex)) := by
  rw [stepTask]
  exact List.getElem?_set_eq_of_lt _ h

theorem processLoop_step (outcomes : Nat → FetchOutcome) (fuel : Nat) (t : Task)
    (q : List CompletedFile) (h : t.currentIndex < t.items.length) :
    processLoop outcomes (fuel + 1) t q =
      processLoop outcomes fuel (stepTask outcomes t h)
        (q ++ successDesc t.currentIndex (outcomes t.currentIndex)) := by
  simp only [processLoop, dif_pos h, stepTask]

/-- Everything the loop does, from an arbitrary mid-run state: it ends
with status `completed` and the cursor at the end, leaves already
processed items alone, settles each remaining item from its own outcome
only, and appends one descriptor per successful remaining item. -/
theorem processLoop_master (outcomes : Nat → FetchOutcome) :
    ∀ (fuel : Nat) (t : Task) (q : List CompletedFile),
      t.items.length - t.currentIndex ≤ fuel →
      t.currentIndex ≤ t.items.length →
      (processLoop outcomes fuel t q).1.status = "completed" ∧
      (processLoop outcomes fuel t q).1.currentIndex = t.items.length ∧
      (processLoop outcomes fuel t q).1.items.length = t.items.length ∧
      (∀ i : Nat, i < t.currentIndex →
        (processLoop outcomes fuel t q).1.items[i]? = t.items[i]?) ∧
      (∀ i : Nat, t.currentIndex ≤ i → ∀ it : WorkItem, t.items[i]? = some it →
        (processLoop outcomes fuel t q).1.items[i]? =
          some (settleItem { it with status := "downloading" } (outcomes i))) ∧
      (processLoop outcomes fuel t q).2 =
        q ++ descList outcomes t.currentIndex (t.items.length - t.currentIndex) := by
  intro fuel
  induction fuel with
  | zero =>
    intro t q hfuel hle
    have hnc : ¬t.currentIndex < t.items.length := by omega
    have heq : t.currentIndex = t.items.length := by omega
    rw [processLoop_done outcomes 0 t q hnc]
    refine ⟨rfl, heq, rfl, fun i _ => rfl, ?_, ?_⟩
    · intro i hi it hit
      rw [List.getElem?_eq_none (by omega)] at hit
      exact absurd hit (by simp)
    · rw [heq, Nat.sub_self]
      simp [descList]
  | succ fuel ih =>
    intro t q hfuel hle
    by_cases h : t.currentIndex < t.items.length
    · rw [processLoop_step outcomes fuel t q h]
      have hlen := stepTask_items_length outcomes t h
      have hcur := stepTask_currentIndex outcomes t h
      obtain ⟨ih1, ih2, ih3, ih4, ih5, ih6⟩ :=
        ih (stepTask outcomes t h) (q ++ successDesc t.currentIndex (outcomes t.currentIndex))
          (by rw [hlen, hcur]; omega) (by rw [hlen, hcur]; omega)
      refine ⟨ih1, by rw [ih2, hlen], by rw [ih3, hlen], ?_, ?_, ?_⟩
      · intro i hi
        rw [ih4 i (by rw [hcur]; omega)]
        exact stepTask_items_ne outcomes t h i (by omega)
      · intro i hi it hit
        rcases Nat.eq_or_lt_of_le hi with hieq | hilt
        · subst hieq
          have hget : t.items[t.currentIndex]? = some (t.items.get ⟨t.currentIndex, h⟩) := by
            rw [List.getElem?_eq_getElem h, List.get_eq_getElem]
          have hit' : it = t.items.get ⟨t.currentIndex, h⟩ := by
            rw [hget] at hit
            exact (Option.some.injEq _ _ ▸ hit).symm
          rw [ih4 t.currentIndex (by rw [hcur]; omega), stepTask_items_self outcomes t h, hit']
        · rw [ih5 i (by rw [hcur]; omega) it
            (by rw [stepTask_items_ne outcomes t h i (by omega)]; exact hit)]
      · rw [ih6, hcur, hlen]
        have harith : t.items.length - t.currentIndex =
            (t.items.length - (t.currentIndex + 1)) + 1 := by omega
        rw [harith, descList, List.append_assoc]
    · rw [processLoop_done outcomes (fuel + 1) t q h]
      have heq : t.currentIndex = t.items.length := by omega
      refine ⟨rfl, heq, rfl, fun i _ => rfl, ?_, ?_⟩
      · intro i hi it hit
        rw [List.getElem?_eq_none (by omega)] at hit
        exact absurd hit (by simp)
      · rw [heq, Nat.sub_self]
        simp [descList]

/-- C1: for a task created from a non-empty list of N urls and any
per-item outcome sequence, the finished loop leaves task status
`completed` and cursor N, and every item is settled purely from its own
outcome — a success stores `filename`/`filepath`, a failure stores only
the error message on that item and the remaining items are still
processed. -/
theorem c1_loop_completes_all_items (urls : List String) (format : String)
    (outcomes : Nat → FetchOutcome) (hne : urls ≠ []) :
    (processQueue outcomes (initTask urls format) []).1.status = "completed" ∧
    (processQueue outcomes (initTask urls format) []).1.currentIndex = urls.length ∧
    (processQueue outcomes (initTask urls format) []).1.items.length = urls.length ∧
    (∀ i : Nat, ∀ u : String, urls[i]? = some u →
      (processQueue outcomes (initTask urls format) []).1.items[i]? =
        some (match outcomes i with
          | FetchOutcome.success fn fp =>
            { url := u, format := format, status := "completed",
              filename := some fn, filepath := some fp, error := none }
          | FetchOutcome.failure msg =>
            { url := u, format := format, status := "error",
              filename := none, filepath := none, error := some msg })) := by
  have hlen : (initTask urls format).items.length = urls.length := by
    simp [initTask]
  obtain ⟨h1, h2, h3, _, h5, _⟩ :=
    processLoop_master outcomes
      ((initTask urls format).items.length - (initTask urls format).currentIndex)
      (initTask urls format) [] (Nat.le_refl _) (Nat.zero_le _)
  have hpq : processQueue outcomes (initTask urls format) [] =
      processLoop outcomes
        ((initTask urls format).items.length - (initTask urls format).currentIndex)
        (initTask urls format) [] := rfl
  rw [hpq]
  refine ⟨h1, by rw [h2, hlen], by rw [h3, hlen], ?_⟩
  intro i u hu
  have hmap : (initTask urls format).items[i]? = some (mkWorkItem format u) := by
    simp [initTask, List.getElem?_map, hu]
  rw [h5 i (Nat.zero_le i) (mkWorkItem format u) hmap]
  cases houtcome : outcomes i <;> simp [settleItem, mkWorkItem]

/-- Witness for C1: two urls, the first succeeds and the second fails;
the task still completes with cursor 2 and only item 1 carries an error. -/
theorem c1_witness :
    ((["A", "B"] : List String) ≠ []) ∧
    ((processQueue (fun i => if i == 0 then FetchOutcome.success "a.mp3" "/tmp/a"
        else FetchOutcome.failure "boom") (initTask ["A", "B"] "bestaudio--mp3") []).1.status
      = "completed") ∧
    ((processQueue (fun i => if i == 0 then FetchOutcome.success "a.mp3" "/tmp/a"
        else FetchOutcome.failure "boom") (initTask ["A", "B"] "bestaudio--mp3") []).1.currentIndex
      = 2) := by
  have hmain := c1_loop_completes_all_items ["A", "B"] "bestaudio--mp3"
    (fun i => if i == 0 then FetchOutcome.success "a.mp3" "/tmp/a"
      else FetchOutcome.failure "boom") (by decide)
  exact ⟨by decide, hmain.1, hmain.2.1⟩

/-! ### The completed-file queue is strictly ordered by item index -/

theorem descList_index_bounds (outcomes : Nat → FetchOutcome) :
    ∀ (count start : Nat) (d : CompletedFile),
      d ∈ descList outcomes start count → start ≤ d.index ∧ d.index < start + count := by
  intro count
  induction count with
  | zero => intro start d hd; simp [descList] at hd
  | succ n ihn =>
    intro start d hd
    rw [descList] at hd
    rcases List.mem_append.mp hd with h1 | h2
    · cases ho : outcomes start <;> rw [ho] at h1 <;> simp [successDesc] at h1
      have hidx : d.index = start := by rw [h1]
      omega
    · have := ihn (start + 1) d h2
      exact ⟨by omega, by omega⟩

theorem descList_pairwise (outcomes : Nat → FetchOutcome) :
    ∀ count start : Nat,
      List.Pairwise (fun a b : CompletedFile => a.index < b.index)
        (descList outcomes start count) := by
  intro count
  induction count with
  | zero => intro start; simp [descList]
  | succ n ihn =>
    intro start
    rw [descList, List.pairwise_append]
    refine ⟨?_, ihn (start + 1), ?_⟩
    · cases outcomes start <;> simp [successDesc]
    · intro a ha b hb
      have hb' := descList_index_bounds outcomes n (start + 1) b hb
      cases ho : outcomes start <;> rw [ho] at ha <;> simp [successDesc] at ha
      have hidx : a.index = start := by rw [ha]
      omega

/-- C2: `getNextCompletedFile` removes and returns the head (oldest
entry) of the task's completed-file queue, returns none on an unknown
task or an empty queue, and is destructive: with the queue the processor
actually builds (indices strictly increasing in completion order), two
successive calls return the first two entries in FIFO order and never
the same descriptor twice. -/
theorem c2_drain_destructive_fifo :
    ∀ (completed : List (String × List CompletedFile)) (taskId : String),
      (mget completed taskId = none →
        getNextCompletedFile completed taskId = (none, completed)) ∧
      (mget completed taskId = some [] →
        getNextCompletedFile completed taskId = (none, completed)) ∧
      (∀ (d : CompletedFile) (rest : List CompletedFile),
        mget completed taskId = some (d :: rest) →
        (getNextCompletedFile completed taskId).1 = some d ∧
        mget (getNextCompletedFile completed taskId).2 taskId = some rest ∧
        (∀ k : String, k ≠ taskId →
          mget (getNextCompletedFile completed taskId).2 k = mget completed k)) ∧
      (∀ q : List CompletedFile, mget completed taskId = some q →
        List.Pairwise (fun a b : CompletedFile => a.index < b.index) q →
        ∀ d1 d2 : CompletedFile,
          (getNextCompletedFile completed taskId).1 = some d1 →
          (getNextCompletedFile (getNextCompletedFile completed taskId).2 taskId).1 = some d2 →
          q[0]? = some d1 ∧ q[1]? = some d2 ∧ d1 ≠ d2) ∧
      (∀ (urls : List String) (format : String) (outcomes : Nat → FetchOutcome),
        List.Pairwise (fun a b : CompletedFile => a.index < b.index)
          (processQueue outcomes (initTask urls format) []).2) := by
  intro completed taskId
  refine ⟨?_, ?_, ?_, ?_, ?_⟩
  · intro h; simp [getNextCompletedFile, h]
  · intro h; simp [getNextCompletedFile, h]
  · intro d rest h
    have hfst : (getNextCompletedFile completed taskId).1 = some d := by
      simp [getNextCompletedFile, h]
    have hsnd : (getNextCompletedFile completed taskId).2 = mset completed taskId rest := by
      simp [getNextCompletedFile, h]
    exact ⟨hfst, by rw [hsnd]; exact mget_mset_self completed taskId rest,
      fun k hk => by rw [hsnd]; exact mget_mset_ne completed taskId k rest hk⟩
  · intro q hq hpair d1 d2 hd1 hd2
    cases q with
    | nil => rw [(by simp [getNextCompletedFile, hq] : getNextCompletedFile completed taskId
        = (none, completed))] at hd1; exact absurd hd1 (by simp)
    | cons d rest =>
      have hfst : (getNextCompletedFile completed taskId).1 = some d := by
        simp [getNextCompletedFile, hq]
      have hsnd : (getNextCompletedFile completed taskId).2 = mset completed taskId rest := by
        simp [getNextCompletedFile, hq]
      have hd1' : d1 = d := by rw [hfst] at hd1; exact (Option.some.injEq _ _ ▸ hd1.symm)
      cases rest with
      | nil =>
        rw [hsnd] at hd2
        have : getNextCompletedFile (mset completed taskId []) taskId
            = (none, mset completed taskId []) := by
          simp [getNextCompletedFile, mget_mset_self completed taskId ([] : List CompletedFile)]
        rw [this] at hd2
        exact absurd hd2 (by simp)
      | cons e rest' =>
        rw [hsnd] at hd2
        have hsome : mget (mset completed taskId (e :: rest')) taskId = some (e :: rest') :=
          mget_mset_self completed taskId (e :: rest')
        have : (getNextCompletedFile (mset completed taskId (e :: rest')) taskId).1 = some e := by
          simp [getNextCompletedFile, hsome]
        rw [this] at hd2
        have hd2' : d2 = e := Option.some.injEq _ _ ▸ hd2.symm
        have hlt : d.index < e.index := by
          have := List.pairwise_cons.mp hpair
          exact this.1 e (by simp)
        refine ⟨by rw [hd1']; rfl, by rw [hd2']; simp, ?_⟩
        intro hcontra
        rw [hd1', hd2'] at hcontra
        rw [hcontra] at hlt
        exact absurd hlt (by omega)
  · intro urls format outcomes
    obtain ⟨_, _, _, _, _, h6⟩ :=
      processLoop_master outcomes
        ((initTask urls format).items.length - (initTask urls format).currentIndex)
        (initTask urls format) [] (Nat.le_refl _) (Nat.zero_le _)
    have hpq : (processQueue outcomes (initTask urls format) []).2 =
        (processLoop outcomes
          ((initTask urls format).items.length - (initTask urls format).currentIndex)
          (initTask urls format) []).2 := rfl
    rw [hpq, h6]
    simpa using descList_pairwise outcomes _ _

/-- Witness for C2: a two-entry queue is drained in FIFO order and the
two drained descriptors differ. -/
theorem c2_witness :
    (mget [("t", [({ index := 0, filename := "a", filepath := "pa" } : CompletedFile),
        { index := 1, filename := "b", filepath := "pb" }])] "t" =
      some [({ index := 0, filename := "a", filepath := "pa" } : CompletedFile),
        { index := 1, filename := "b", filepath := "pb" }]) ∧
    ([({ index := 0, filename := "a", filepath := "pa" } : CompletedFile),
        { index := 1, filename := "b", filepath := "pb" }][0]? =
      some { index := 0, filename := "a", filepath := "pa" } ∧
     [({ index := 0, filename := "a", filepath := "pa" } : CompletedFile),
        { index := 1, filename := "b", filepath := "pb" }][1]? =
      some { index := 1, filename := "b", filepath := "pb" } ∧
     ({ index := 0, filename := "a", filepath := "pa" } : CompletedFile) ≠
      { index := 1, filename := "b", filepath := "pb" }) := by
  refine ⟨by decide, ?_⟩
  exact (c2_drain_destructive_fifo
      [("t", [{ index := 0, filename := "a", filepath := "pa" },
        { index := 1, filename := "b", filepath := "pb" }])] "t").2.2.2.1
    [{ index := 0, filename := "a", filepath := "pa" },
      { index := 1, filename := "b", filepath := "pb" }]
    (by decide) (by decide) _ _ (by decide) (by decide)

/-! ### Per-item field invariant (C8) -/

/-- The field discipline every work item obeys in every reachable state:
`pending` and `downloading` items have no fields populated, `completed`
items have exactly `filename`/`filepath`, `error` items exactly
`error`. -/
def itemOk (it : WorkItem) : Prop :=
  (it.status = "pending" → it.filename = none ∧ it.filepath = none ∧ it.error = none) ∧
  (it.status = "downloading" → it.filename = none ∧ it.filepath = none ∧ it.error = none) ∧
  (it.status = "completed" → it.filename.isSome ∧ it.filepath.isSome ∧ it.error = none) ∧
  (it.status = "error" → it.error.isSome ∧ it.filename = none ∧ it.filepath = none)

theorem markItem_ok (it : WorkItem)
    (hcln : it.filename = none ∧ it.filepath = none ∧ it.error = none) :
    itemOk { it with status := "downloading" } :=
  ⟨fun hst => by simp at hst, fun _ => ⟨hcln.1, hcln.2.1, hcln.2.2⟩,
   fun hst => by simp at hst, fun hst => by simp at hst⟩

theorem settleItem_ok (it : WorkItem) (o : FetchOutcome)
    (hcln : it.filename = none ∧ it.filepath = none ∧ it.error = none) :
    itemOk (settleItem it o) := by
  cases o with
  | success fn fp =>
    exact ⟨fun hst => by simp [settleItem] at hst, fun hst => by simp [settleItem] at hst,
      fun _ => ⟨by simp [settleItem], by simp [settleItem], by simp [settleItem, hcln.2.2]⟩,
      fun hst => by simp [settleItem] at hst⟩
  | failure msg =>
    exact ⟨fun hst => by simp [settleItem] at hst, fun hst => by simp [settleItem] at hst,
      fun hst => by simp [settleItem] at hst,
      fun _ => ⟨by simp [settleItem], by simp [settleItem, hcln.1],
        by simp [settleItem, hcln.2.1]⟩⟩

theorem mkWorkItem_ok (format u : String) : itemOk (mkWorkItem format u) :=
  ⟨fun _ => ⟨rfl, rfl, rfl⟩, fun hst => by simp [mkWorkItem] at hst,
   fun hst => by simp [mkWorkItem] at hst, fun hst => by simp [mkWorkItem] at hst⟩

/-- The task state right after `item.status = 'downloading'`
(downloadQueue.js line 51), before the download settles. -/
def markTask (t : Task) (h : t.currentIndex < t.items.length) : Task :=
  let it := t.items.get ⟨t.currentIndex, h⟩
  { t with items := t.items.set t.currentIndex { it with status := "downloading" } }

theorem processTrace_step (outcomes : Nat → FetchOutcome) (fuel : Nat) (t : Task)
    (q : List CompletedFile) (h : t.currentIndex < t.items.length) :
    processTrace outcomes (fuel + 1) t q =
      (markTask t h, q) ::
      (stepTask outcomes t h, q ++ successDesc t.currentIndex (outcomes t.currentIndex)) ::
      processTrace outcomes fuel (stepTask outcomes t h)
        (q ++ successDesc t.currentIndex (outcomes t.currentIndex)) := by
  simp only [processTrace, dif_pos h, markTask, stepTask]

theorem processTrace_done (outcomes : Nat → FetchOutcome) (fuel : Nat) (t : Task)
    (q : List CompletedFile) (h : ¬t.currentIndex < t.items.length) :
    processTrace outcomes fuel t q = [({ t with status := "completed" }, q)] := by
  cases fuel <;> simp only [processTrace, if_neg h, dif_neg h]

theorem processTrace_zero_unfinished (outcomes : Nat → FetchOutcome) (t : Task)
    (q : List CompletedFile) (h : t.currentIndex < t.items.length) :
    processTrace outcomes 0 t q = [] := by
  simp only [processTrace, if_pos h]

theorem processTrace_inv (outcomes : Nat → FetchOutcome) :
    ∀ (fuel : Nat) (t : Task) (q : List CompletedFile),
      (∀ it ∈ t.items, itemOk it) →
      (∀ (i : Nat) (it : WorkItem), t.currentIndex ≤ i → t.items[i]? = some it →
        it.status = "pending") →
      ∀ s ∈ processTrace outcomes fuel t q, ∀ it ∈ s.1.items, itemOk it := by
  intro fuel
  induction fuel with
  | zero =>
    intro t q h1 _ s hs it hit
    by_cases h : t.currentIndex < t.items.length
    · rw [processTrace_zero_unfinished outcomes t q h] at hs
      exact absurd hs (by simp)
    · rw [processTrace_done outcomes 0 t q h] at hs
      simp only [List.mem_singleton] at hs
      subst hs
      exact h1 it hit
  | succ fuel ih =>
    intro t q h1 h2 s hs
    by_cases h : t.currentIndex < t.items.length
    · have hitem : t.items[t.currentIndex]? = some (t.items.get ⟨t.currentIndex, h⟩) := by
        rw [List.getElem?_eq_getElem h, List.get_eq_getElem]
      have hpend : (t.items.get ⟨t.currentIndex, h⟩).status = "pending" :=
        h2 t.currentIndex _ (Nat.le_refl _) hitem
      have hgetOk : itemOk (t.items.get ⟨t.currentIndex, h⟩) :=
        h1 _ (List.get_mem t.items t.currentIndex h)
      have hcln := hgetOk.1 hpend
      have hmarkcln : ({ t.items.get ⟨t.currentIndex, h⟩ with
          status := "downloading" } : WorkItem).filename = none ∧
          ({ t.items.get ⟨t.currentIndex, h⟩ with
            status := "downloading" } : WorkItem).filepath = none ∧
          ({ t.items.get ⟨t.currentIndex, h⟩ with
            status := "downloading" } : WorkItem).error = none :=
        ⟨hcln.1, hcln.2.1, hcln.2.2⟩
      have hstepItems : ∀ it ∈ (stepTask outcomes t h).items, itemOk it := by
        intro it hit
        have hit' : it ∈ t.items.set t.currentIndex
            (settleItem { t.items.get ⟨t.currentIndex, h⟩ with status := "downloading" }
              (outcomes t.currentIndex)) := hit
        rcases List.mem_or_eq_of_mem_set hit' with hmem | heq
        · exact h1 it hmem
        · rw [heq]
          exact settleItem_ok _ (outcomes t.currentIndex) hmarkcln
      rw [processTrace_step outcomes fuel t q h] at hs
      simp only [List.mem_cons] at hs
      rcases hs with rfl | rfl | hs
      · intro it hit
        have hit' : it ∈ t.items.set t.currentIndex
            ({ t.items.get ⟨t.currentIndex, h⟩ with status := "downloading" }) := hit
        rcases List.mem_or_eq_of_mem_set hit' with hmem | heq
        · exact h1 it hmem
        · rw [heq]
          exact markItem_ok _ hcln
      · exact hstepItems
      · refine ih (stepTask outcomes t h) _ hstepItems ?_ s hs
        intro i it hi hit
        rw [stepTask_currentIndex] at hi
        rw [stepTask_items_ne outcomes t h i (by omega)] at hit
        exact h2 i it (by omega) hit
    · rw [processTrace_done outcomes (fuel + 1) t q h] at hs
      simp only [List.mem_singleton] at hs
      subst hs
      exact h1

/-- C8: in every reachable state of a task, once an item's status has
left `downloading`, exactly one field group is populated — a `completed`
item has `filename` and `filepath` set and `error` null, an `error` item
has `error` set and `filename`/`filepath` null. -/
theorem c8_settled_item_fields (urls : List String) (format : String)
    (outcomes : Nat → FetchOutcome) (s : Task × List CompletedFile)
    (hs : s ∈ reachableStates urls format outcomes) :
    ∀ it ∈ s.1.items,
      (it.status = "completed" → it.filename.isSome ∧ it.filepath.isSome ∧ it.error = none) ∧
      (it.status = "error" → it.error.isSome ∧ it.filename = none ∧ it.filepath = none) := by
  have hinit1 : ∀ it ∈ (initTask urls format).items, itemOk it := by
    intro it hit
    simp only [initTask, List.mem_map] at hit
    obtain ⟨u, _, hu⟩ := hit
    rw [← hu]
    exact mkWorkItem_ok format u
  have hinit2 : ∀ (i : Nat) (it : WorkItem), (initTask urls format).currentIndex ≤ i →
      (initTask urls format).items[i]? = some it → it.status = "pending" := by
    intro i it _ hit
    simp only [initTask, List.getElem?_map] at hit
    cases hu : urls[i]? with
    | none => rw [hu] at hit; exact absurd hit (by simp)
    | some u =>
      rw [hu] at hit
      simp only [Option.map_some', Option.some.injEq] at hit
      rw [← hit]
      rfl
  rw [reachableStates] at hs
  simp only [List.mem_cons] at hs
  rcases hs with rfl | hs
  · intro it hit
    have := hinit1 it hit
    exact ⟨this.2.2.1, this.2.2.2⟩
  · intro it hit
    have := processTrace_inv outcomes urls.length (initTask urls format) []
      hinit1 hinit2 s hs it hit
    exact ⟨this.2.2.1, this.2.2.2⟩

/-- The settled item of the one-url demo task used to witness C8. -/
def c8DemoItem : WorkItem :=
  { url := "u", format := "best", status := "completed",
    filename := some "f", filepath := some "p", error := none }

/-- A settled one-item task state used to witness C8. -/
def c8DemoState : Task × List CompletedFile :=
  ({ items := [c8DemoItem], currentIndex := 1, status := "completed" },
   [{ index := 0, filename := "f", filepath := "p" }])

/-- Witness for C8 at the final reachable state of a one-url task whose
download succeeds. -/
theorem c8_witness :
    (c8DemoState ∈ reachableStates ["u"] "best" (fun _ => FetchOutcome.success "f" "p")) ∧
    (∀ it ∈ c8DemoState.1.items,
      (it.status = "completed" → it.filename.isSome ∧ it.filepath.isSome ∧ it.error = none) ∧
      (it.status = "error" → it.error.isSome ∧ it.filename = none ∧ it.filepath = none)) :=
  ⟨by decide,
   c8_settled_item_fields ["u"] "best" (fun _ => FetchOutcome.success "f" "p")
     c8DemoState (by decide)⟩

/-! ### Status snapshots (C3) and per-item file handles (C4) -/

/-- C3: `getTaskStatus` returns none exactly for an unknown (or cleaned
up) task id; for a stored task it returns a projection whose `completed`
field is the count of items with status `completed` computed at call
time, whose `total` is the item count, whose `current` is the cursor, and
whose `items` are the per-item `{status, filename, error}` views. -/
theorem c3_status_snapshot :
    ∀ (queue : List (String × Task)) (taskId : String),
      (mget queue taskId = none → getTaskStatus queue taskId = none) ∧
      (∀ task : Task, mget queue taskId = some task →
        ∃ snap : StatusSnapshot, getTaskStatus queue taskId = some snap ∧
          snap.status = task.status ∧
          snap.total = task.items.length ∧
          snap.completed = task.items.countP (fun it => it.status == "completed") ∧
          snap.current = task.currentIndex ∧
          snap.items.length = task.items.length ∧
          (∀ (i : Nat) (it : WorkItem), task.items[i]? = some it →
            snap.items[i]? =
              some { status := it.status, filename := it.filename, error := it.error })) := by
  intro queue taskId
  constructor
  · intro h; simp [getTaskStatus, h]
  · intro task h
    have hsnap : getTaskStatus queue taskId = some
        ({ status := task.status,
           total := task.items.length,
           completed := (task.items.filter (fun i => i.status == "completed")).length,
           current := task.currentIndex,
           items := task.items.map (fun i =>
             { status := i.status, filename := i.filename, error := i.error }) }) := by
      simp [getTaskStatus, h]
    refine ⟨_, hsnap, rfl, rfl, (List.countP_eq_length_filter _ _).symm, rfl, by simp, ?_⟩
    intro i it hit
    simp [List.getElem?_map, hit]

/-- The items of the demonstration task: one of each status. -/
def demoItemDone : WorkItem :=
  { url := "u1", format := "best", status := "completed",
    filename := some "f1", filepath := some "p1", error := none }

def demoItemErr : WorkItem :=
  { url := "u2", format := "best", status := "error",
    filename := none, filepath := none, error := some "boom" }

def demoItemDownloading : WorkItem :=
  { url := "u3", format := "best", status := "downloading",
    filename := none, filepath := none, error := none }

/-- A mid-run task with a completed, an errored, a downloading and a
pending item, used to witness C3 and C4. -/
def demoTask : Task :=
  { items := [demoItemDone, demoItemErr, demoItemDownloading, mkWorkItem "best" "u4"],
    currentIndex := 2, status := "processing" }

/-- A one-task store used to witness C3 and C4. -/
def demoQueue : List (String × Task) := [("t1", demoTask)]

/-- Witness for C3 on the demonstration store: unknown id gives none, the
stored task gives the recomputed snapshot. -/
theorem c3_witness :
    (mget demoQueue "zz" = none) ∧
    (getTaskStatus demoQueue "zz" = none) ∧
    (mget demoQueue "t1" = some demoTask) ∧
    (∃ snap : StatusSnapshot, getTaskStatus demoQueue "t1" = some snap ∧
      snap.status = demoTask.status ∧
      snap.total = demoTask.items.length ∧
      snap.completed = demoTask.items.countP (fun it => it.status == "completed") ∧
      snap.current = demoTask.currentIndex ∧
      snap.items.length = demoTask.items.length ∧
      (∀ (i : Nat) (it : WorkItem), demoTask.items[i]? = some it →
        snap.items[i]? =
          some { status := it.status, filename := it.filename, error := it.error })) :=
  ⟨by decide, (c3_status_snapshot demoQueue "zz").1 (by decide), by decide,
   (c3_status_snapshot demoQueue "t1").2 demoTask (by decide)⟩

/-- C4: `getFileInfo` returns a `{filename, filepath}` handle exactly
when the task is stored, the index denotes an existing item, and that
item's status is exactly `completed`; any other status, a negative or
out-of-range index, or an unknown task id gives none (the function is
total — bad indices cannot throw). -/
theorem c4_get_item_file :
    ∀ (queue : List (String × Task)) (taskId : String) (index : Int),
      ((getFileInfo queue taskId index).isSome = true ↔
        (∃ task : Task, mget queue taskId = some task ∧ 0 ≤ index ∧
          ∃ it : WorkItem, task.items[index.toNat]? = some it ∧ it.status = "completed")) ∧
      (∀ (task : Task) (it : WorkItem), mget queue taskId = some task → 0 ≤ index →
        task.items[index.toNat]? = some it → it.status = "completed" →
        getFileInfo queue taskId index =
          some { filename := it.filename, filepath := it.filepath }) ∧
      (∀ (task : Task) (it : WorkItem), mget queue taskId = some task → 0 ≤ index →
        task.items[index.toNat]? = some it → it.status ≠ "completed" →
        getFileInfo queue taskId index = none) ∧
      (∀ task : Task, mget queue taskId = some task →
        (index < 0 ∨ task.items.length ≤ index.toNat) →
        getFileInfo queue taskId index = none) ∧
      (mget queue taskId = none → getFileInfo queue taskId index = none) := by
  intro queue taskId index
  have hpos : ∀ (task : Task) (it : WorkItem), mget queue taskId = some task → 0 ≤ index →
      task.items[index.toNat]? = some it → it.status = "completed" →
      getFileInfo queue taskId index =
        some { filename := it.filename, filepath := it.filepath } := by
    intro task it htask hge hit hst
    simp [getFileInfo, htask, if_pos hge, hit, hst]
  have hnone : mget queue taskId = none → getFileInfo queue taskId index = none := by
    intro h; simp [getFileInfo, h]
  have hbadstatus : ∀ (task : Task) (it : WorkItem), mget queue taskId = some task →
      0 ≤ index → task.items[index.toNat]? = some it → it.status ≠ "completed" →
      getFileInfo queue taskId index = none := by
    intro task it htask hge hit hst
    simp [getFileInfo, htask, if_pos hge, hit, hst]
  have hrange : ∀ task : Task, mget queue taskId = some task →
      (index < 0 ∨ task.items.length ≤ index.toNat) →
      getFileInfo queue taskId index = none := by
    intro task htask hbad
    rcases hbad with hlt | hlen
    · simp [getFileInfo, htask, show ¬(0 ≤ index) by omega]
    · by_cases hge : 0 ≤ index
      · simp [getFileInfo, htask, if_pos hge, List.getElem?_eq_none hlen]
      · simp [getFileInfo, htask, hge]
  refine ⟨?_, hpos, hbadstatus, hrange, hnone⟩
  constructor
  · intro hsome
    cases hq : mget queue taskId with
    | none => rw [hnone hq] at hsome; exact absurd hsome (by simp)
    | some task =>
      by_cases hge : 0 ≤ index
      · cases hit : task.items[index.toNat]? with
        | none =>
          rw [hrange task hq (Or.inr (by
            rcases List.getElem?_eq_none_iff.mp hit with hh
            exact hh))] at hsome
          exact absurd hsome (by simp)
        | some it =>
          by_cases hst : it.status = "completed"
          · exact ⟨task, rfl, hge, it, hit, hst⟩
          · rw [hbadstatus task it hq hge hit hst] at hsome
            exact absurd hsome (by simp)
      · rw [hrange task hq (Or.inl (by omega))] at hsome
        exact absurd hsome (by simp)
  · rintro ⟨task, htask, hge, it, hit, hst⟩
    rw [hpos task it htask hge hit hst]
    rfl

/-- Witness for C4 on the demonstration store: handle for the completed
item, none for the errored and downloading items, for a negative and an
out-of-range index, and for an unknown id. -/
theorem c4_witness :
    (mget demoQueue "t1" = some demoTask) ∧
    (demoTask.items[(0 : Int).toNat]? = some demoItemDone) ∧
    (demoItemDone.status = "completed") ∧
    (getFileInfo demoQueue "t1" 0 =
      some { filename := demoItemDone.filename, filepath := demoItemDone.filepath }) ∧
    (demoTask.items[(1 : Int).toNat]? = some demoItemErr) ∧
    (demoItemErr.status ≠ "completed") ∧
    (getFileInfo demoQueue "t1" 1 = none) ∧
    (getFileInfo demoQueue "t1" (-1) = none) ∧
    (getFileInfo demoQueue "t1" 9 = none) ∧
    (mget demoQueue "zz" = none) ∧
    (getFileInfo demoQueue "zz" 0 = none) :=
  ⟨by decide, by decide, by decide,
   (c4_get_item_file demoQueue "t1" 0).2.1 demoTask demoItemDone
     (by decide) (by decide) (by decide) (by decide),
   by decide, by decide,
   (c4_get_item_file demoQueue "t1" 1).2.2.1 demoTask demoItemErr
     (by decide) (by decide) (by decide) (by decide),
   (c4_get_item_file demoQueue "t1" (-1)).2.2.2.1 demoTask (by decide) (Or.inl (by decide)),
   (c4_get_item_file demoQueue "t1" 9).2.2.2.1 demoTask (by decide) (Or.inr (by decide)),
   by decide,
   (c4_get_item_file demoQueue "zz" 0).2.2.2.2 (by decide)⟩

/-! ### Cleanup (C5, C6)

`cleanupTask` has no `try`/`catch`: when `fs.unlinkSync` throws on an
existing file (a real failure mode of Node's `unlinkSync`, e.g. `EPERM`),
the exception propagates out of `cleanupTask` and the two `Map.delete`
calls are skipped.  The concrete store below exhibits that. -/

theorem contains_filter_ne (l : List String) (p : String) :
    (l.filter (fun q => q != p)).contains p = false := by
  cases h : (l.filter (fun q => q != p)).contains p with
  | false => rfl
  | true =>
    have h2 := List.elem_iff.mp h
    have h3 := (List.mem_filter.mp h2).2
    simp at h3

theorem contains_mono_filter (l : List String) (f : String → Bool) (q : String)
    (h : (l.filter f).contains q = true) : l.contains q = true :=
  List.elem_iff.mpr (List.mem_filter.mp (List.elem_iff.mp h)).1

/-- When none of the populated filepaths is unlink-protected, the
`forEach` body of `cleanupTask` runs to completion: it removes exactly
the items' files (never creating any) and leaves `unlinkFails` alone. -/
theorem unlinkItems_ok (items : List WorkItem) :
    ∀ fs : FileSystem,
      (∀ it ∈ items, ∀ p : String, it.filepath = some p →
        fs.unlinkFails.contains p = false) →
      ∃ fs' : FileSystem, unlinkItems fs items = Except.ok fs' ∧
        fs'.unlinkFails = fs.unlinkFails ∧
        (∀ p : String, fs'.files.contains p = true → fs.files.contains p = true) ∧
        (∀ it ∈ items, ∀ p : String, it.filepath = some p → p ≠ "" →
          fs'.files.contains p = false) := by
  induction items with
  | nil =>
    intro fs _
    exact ⟨fs, rfl, rfl, fun _ h => h, by simp⟩
  | cons it rest ih =>
    intro fs hfail
    have hfailrest : ∀ it2 ∈ rest, ∀ p : String, it2.filepath = some p →
        fs.unlinkFails.contains p = false :=
      fun it2 hit2 p hp => hfail it2 (List.mem_cons_of_mem it hit2) p hp
    cases hfp : it.filepath with
    | none =>
      obtain ⟨fs', h1, h2, h3, h4⟩ := ih fs hfailrest
      refine ⟨fs', ?_, h2, h3, ?_⟩
      · simp only [unlinkItems, hfp]
        exact h1
      · intro it2 hit2 p hp hpne
        rcases List.mem_cons.mp hit2 with heq | hmem
        · rw [heq, hfp] at hp
          exact absurd hp (by simp)
        · exact h4 it2 hmem p hp hpne
    | some p =>
      by_cases hex : existsSync fs p = true
      · by_cases hpe : p = ""
        · have hcond : ((p != "") && existsSync fs p) = false := by
            subst hpe; simp
          obtain ⟨fs', h1, h2, h3, h4⟩ := ih fs hfailrest
          refine ⟨fs', ?_, h2, h3, ?_⟩
          · simp only [unlinkItems, hfp, hcond, Bool.false_eq_true, if_false]
            exact h1
          · intro it2 hit2 p2 hp2 hp2ne
            rcases List.mem_cons.mp hit2 with heq | hmem
            · rw [heq, hfp] at hp2
              injection hp2 with hpp
              subst hpe
              exact absurd hpp.symm hp2ne
            · exact h4 it2 hmem p2 hp2 hp2ne
        · have hnf : fs.unlinkFails.contains p = false :=
            hfail it (List.mem_cons_self it rest) p hfp
          have hcond : ((p != "") && existsSync fs p) = true := by
            simp [hex, hpe]
          have hfc : fs.files.contains p = true := hex
          have hunlink : unlinkSync fs p =
              Except.ok { fs with files := fs.files.filter (fun q => q != p) } := by
            rw [unlinkSync, if_pos hfc, if_neg (by rw [hnf]; decide)]
          obtain ⟨fs', h1, h2, h3, h4⟩ :=
            ih { fs with files := fs.files.filter (fun q => q != p) }
              (fun it2 hit2 p2 hp2 => hfailrest it2 hit2 p2 hp2)
          refine ⟨fs', ?_, h2, ?_, ?_⟩
          · simp only [unlinkItems, hfp, hcond, if_true, hunlink]
            exact h1
          · intro p2 hp2
            exact contains_mono_filter fs.files _ p2 (h3 p2 hp2)
          · intro it2 hit2 p2 hp2 hp2ne
            rcases List.mem_cons.mp hit2 with heq | hmem
            · rw [heq, hfp] at hp2
              injection hp2 with hpp
              subst hpp
              cases hres : fs'.files.contains p with
              | false => rfl
              | true =>
                have hcontra := h3 p hres
                rw [show ({ fs with files := fs.files.filter (fun q => q != p) }
                    : FileSystem).files = fs.files.filter (fun q => q != p) from rfl,
                  contains_filter_ne] at hcontra
                exact absurd hcontra (by simp)
            · exact h4 it2 hmem p2 hp2 hp2ne
      · have hexf : existsSync fs p = false := by
          cases hx : existsSync fs p
          · rfl
          · exact absurd hx hex
        have hcond : ((p != "") && existsSync fs p) = false := by
          simp [hexf]
        obtain ⟨fs', h1, h2, h3, h4⟩ := ih fs hfailrest
        refine ⟨fs', ?_, h2, h3, ?_⟩
        · simp only [unlinkItems, hfp, hcond, Bool.false_eq_true, if_false]
          exact h1
        · intro it2 hit2 p2 hp2 hp2ne
          rcases List.mem_cons.mp hit2 with heq | hmem
          · rw [heq, hfp] at hp2
            injection hp2 with hpp
            subst hpp
            cases hres : fs'.files.contains p with
            | false => rfl
            | true =>
              have hcontra := h3 p hres
              have hfsf : fs.files.contains p = false := hexf
              rw [hfsf] at hcontra
              exact absurd hcontra (by simp)
          · exact h4 it2 hmem p2 hp2 hp2ne

/-- `cleanupTask` on an id with no stored task: both map deletions run,
nothing touches the filesystem. -/
theorem cleanupTask_unknown (st : Store) (fs : FileSystem) (taskId : String)
    (h : mget st.downloadQueue taskId = none) :
    cleanupTask st fs taskId = Except.ok
      ({ downloadQueue := mdel st.downloadQueue taskId,
         completedFiles := mdel st.completedFiles taskId }, fs) := by
  simp [cleanupTask, h]

/-- The completed item whose file the filesystem refuses to unlink. -/
def badItem : WorkItem :=
  { url := "u", format := "best", status := "completed",
    filename := some "f", filepath := some "/tmp/f", error := none }

/-- A finished one-item task holding `/tmp/f`. -/
def badTask : Task := { items := [badItem], currentIndex := 1, status := "completed" }

/-- A store holding `badTask` under id `T1`. -/
def badStore : Store :=
  { downloadQueue := [("T1", badTask)], completedFiles := [("T1", [])] }

/-- A filesystem on which `/tmp/f` exists but `unlinkSync` fails
(e.g. the temp directory lost write permission). -/
def badFS : FileSystem := { files := ["/tmp/f"], unlinkFails := ["/tmp/f"] }

/-- The same filesystem with deletion working normally. -/
def goodFS : FileSystem := { files := ["/tmp/f"], unlinkFails := [] }

/-- The empty store. -/
def emptyStore : Store := { downloadQueue := [], completedFiles := [] }

/-- The empty filesystem. -/
def emptyFS : FileSystem := { files := [], unlinkFails := [] }

/-- Counterexample to C5 as stated: calling `cleanupTask` twice in
succession on `T1` raises (`fs.unlinkSync` throws `EPERM` during the
first call and nothing catches it), so cleanup on a stored task does not
always complete without error. -/
theorem c5_counterexample :
    cleanupTwice badStore badFS "T1" = Except.error "EPERM" := rfl

/-- C5 as amended: cleanup on an id with no stored task (never created,
or already cleaned) completes without error, touches no file, and leaves
the store with no entry for that id and every other entry intact; and
whenever a cleanup call does complete without error, the id is gone and
a second call also completes without error.  (A first call on a stored
task can still raise, when a file deletion fails.) -/
theorem c5_cleanup_idempotent_amended :
    ∀ (st : Store) (fs : FileSystem) (taskId : String),
      (mget st.downloadQueue taskId = none →
        cleanupTask st fs taskId = Except.ok
          ({ downloadQueue := mdel st.downloadQueue taskId,
             completedFiles := mdel st.completedFiles taskId }, fs) ∧
        mget (mdel st.downloadQueue taskId) taskId = none ∧
        mget (mdel st.completedFiles taskId) taskId = none ∧
        (∀ k : String, k ≠ taskId →
          mget (mdel st.downloadQueue taskId) k = mget st.downloadQueue k ∧
          mget (mdel st.completedFiles taskId) k = mget st.completedFiles k)) ∧
      (∀ (st' : Store) (fs' : FileSystem),
        cleanupTask st fs taskId = Except.ok (st', fs') →
        mget st'.downloadQueue taskId = none ∧
        mget st'.completedFiles taskId = none ∧
        cleanupTask st' fs' taskId = Except.ok
          ({ downloadQueue := mdel st'.downloadQueue taskId,
             completedFiles := mdel st'.completedFiles taskId }, fs')) := by
  intro st fs taskId
  constructor
  · intro h
    exact ⟨cleanupTask_unknown st fs taskId h,
      mget_mdel_self st.downloadQueue taskId,
      mget_mdel_self st.completedFiles taskId,
      fun k hk => ⟨mget_mdel_ne st.downloadQueue taskId k hk,
        mget_mdel_ne st.completedFiles taskId k hk⟩⟩
  · intro st' fs' h
    have hst' : st' = Store.mk (mdel st.downloadQueue taskId) (mdel st.completedFiles taskId) := by
      cases hq : mget st.downloadQueue taskId with
      | none =>
        rw [cleanupTask_unknown st fs taskId hq] at h
        injection h with hpair
        injection hpair with hl _
        exact hl.symm
      | some task =>
        cases hu : unlinkItems fs task.items with
        | error e => simp [cleanupTask, hq, hu] at h
        | ok fs2 =>
          simp only [cleanupTask, hq, hu] at h
          injection h with hpair
          injection hpair with hl _
          exact hl.symm
    have hq' : mget st'.downloadQueue taskId = none := by
      rw [hst']
      exact mget_mdel_self st.downloadQueue taskId
    refine ⟨hq', ?_, cleanupTask_unknown st' fs' taskId hq'⟩
    rw [hst']
    exact mget_mdel_self st.completedFiles taskId

/-- Witness for amended C5: cleanup on a never-created id is an error-free
no-op, and after a successful cleanup of `T1` a second call is error-free
with no entry left. -/
theorem c5_witness :
    (mget emptyStore.downloadQueue "X" = none) ∧
    (cleanupTask emptyStore emptyFS "X" = Except.ok
      ({ downloadQueue := mdel emptyStore.downloadQueue "X",
         completedFiles := mdel emptyStore.completedFiles "X" }, emptyFS) ∧
     mget (mdel emptyStore.downloadQueue "X") "X" = none ∧
     mget (mdel emptyStore.completedFiles "X") "X" = none ∧
     (∀ k : String, k ≠ "X" →
       mget (mdel emptyStore.downloadQueue "X") k = mget emptyStore.downloadQueue k ∧
       mget (mdel emptyStore.completedFiles "X") k = mget emptyStore.completedFiles k)) ∧
    (cleanupTask badStore goodFS "T1" = Except.ok (emptyStore, emptyFS)) ∧
    (mget emptyStore.downloadQueue "T1" = none ∧
     mget emptyStore.completedFiles "T1" = none ∧
     cleanupTask emptyStore emptyFS "T1" = Except.ok
       ({ downloadQueue := mdel emptyStore.downloadQueue "T1",
          completedFiles := mdel emptyStore.completedFiles "T1" }, emptyFS)) :=
  ⟨by decide, (c5_cleanup_idempotent_amended emptyStore emptyFS "X").1 (by decide), rfl,
   (c5_cleanup_idempotent_amended badStore goodFS "T1").2 emptyStore emptyFS rfl⟩

/-- Counterexample to C6 as stated: on a store whose only task holds an
existing file that `unlinkSync` cannot remove, `cleanupTask` raises — the
deletion failure is propagated to the caller, and (since the exception
skips the rest of the function) the task record and its completed-file
queue are not removed. -/
theorem c6_counterexample :
    cleanupTask badStore badFS "T1" = Except.error "EPERM" := rfl

/-- C6 as amended: cleanup attempts to delete each item's populated,
still-existing file; when every such deletion succeeds it removes the
task record and its completed-file queue and has deleted exactly those
files; but a failing deletion propagates as an exception to the caller
(and the records then remain). -/
theorem c6_cleanup_deletes_amended :
    ∀ (st : Store) (fs : FileSystem) (taskId : String) (task : Task),
      mget st.downloadQueue taskId = some task →
      ((∀ it ∈ task.items, ∀ p : String, it.filepath = some p →
          fs.unlinkFails.contains p = false) →
        ∃ fs' : FileSystem,
          cleanupTask st fs taskId = Except.ok
            ({ downloadQueue := mdel st.downloadQueue taskId,
               completedFiles := mdel st.completedFiles taskId }, fs') ∧
          mget (mdel st.downloadQueue taskId) taskId = none ∧
          mget (mdel st.completedFiles taskId) taskId = none ∧
          (∀ it ∈ task.items, ∀ p : String, it.filepath = some p → p ≠ "" →
            fs'.files.contains p = false) ∧
          (∀ p : String, fs'.files.contains p = true → fs.files.contains p = true)) ∧
      (∀ e : String, unlinkItems fs task.items = Except.error e →
        cleanupTask st fs taskId = Except.error e) := by
  intro st fs taskId task htask
  constructor
  · intro hfail
    obtain ⟨fs', h1, _, h3, h4⟩ := unlinkItems_ok task.items fs hfail
    refine ⟨fs', ?_, mget_mdel_self st.downloadQueue taskId,
      mget_mdel_self st.completedFiles taskId, h4, h3⟩
    simp [cleanupTask, htask, h1]
  · intro e herr
    simp [cleanupTask, htask, herr]

/-- Witness for amended C6: cleaning up `T1` with a working filesystem
removes `/tmp/f` and both store entries; and the `EPERM` failure on the
protected filesystem propagates. -/
theorem c6_witness :
    (mget badStore.downloadQueue "T1" = some badTask) ∧
    (∃ fs' : FileSystem,
      cleanupTask badStore goodFS "T1" = Except.ok
        ({ downloadQueue := mdel badStore.downloadQueue "T1",
           completedFiles := mdel badStore.completedFiles "T1" }, fs') ∧
      mget (mdel badStore.downloadQueue "T1") "T1" = none ∧
      mget (mdel badStore.completedFiles "T1") "T1" = none ∧
      (∀ it ∈ badTask.items, ∀ p : String, it.filepath = some p → p ≠ "" →
        fs'.files.contains p = false) ∧
      (∀ p : String, fs'.files.contains p = true → goodFS.files.contains p = true)) ∧
    (unlinkItems badFS badTask.items = Except.error "EPERM") ∧
    (cleanupTask badStore badFS "T1" = Except.error "EPERM") :=
  ⟨by decide,
   (c6_cleanup_deletes_amended badStore goodFS "T1" badTask (by decide)).1 (by decide),
   rfl,
   (c6_cleanup_deletes_amended badStore badFS "T1" badTask (by decide)).2 "EPERM" rfl⟩

/-! ### Task-id uniqueness (C9)

`createTask`'s id is a pure function of the observed `Date.now()` value
and `Math.random()` suffix.  Distinct calls in the same millisecond that
draw the same suffix therefore produce the same id string; ids are
guaranteed distinct only when the observed (timestamp, suffix) pairs
differ. -/

theorem digitChar_ne_dash (d : Nat) : digitChar d ≠ '-' := by
  unfold digitChar
  split <;> decide

theorem digitChar_inj (d1 d2 : Nat) (h1 : d1 < 10) (h2 : d2 < 10)
    (h : digitChar d1 = digitChar d2) : d1 = d2 := by
  interval_cases d1 <;> interval_cases d2 <;> revert h <;> decide

theorem map_digitChar_inj : ∀ l1 l2 : List Nat, (∀ x ∈ l1, x < 10) → (∀ x ∈ l2, x < 10) →
    l1.map digitChar = l2.map digitChar → l1 = l2 := by
  intro l1
  induction l1 with
  | nil =>
    intro l2 _ _ h
    cases l2 with
    | nil => rfl
    | cons b l2' => exact absurd h (by simp)
  | cons a l1' ih =>
    intro l2 h1 h2 h
    cases l2 with
    | nil => exact absurd h (by simp)
    | cons b l2' =>
      simp only [List.map_cons, List.cons.injEq] at h
      have hab : a = b := digitChar_inj a b (h1 a (by simp)) (h2 b (by simp)) h.1
      rw [hab, ih l2' (fun x hx => h1 x (by simp [hx])) (fun x hx => h2 x (by simp [hx])) h.2]

theorem dash_not_mem_decChars (n : Nat) : '-' ∉ decChars n := by
  rw [decChars]
  by_cases h : n = 0
  · simp [h]
  · simp only [h, if_false]
    intro hmem
    rw [List.mem_reverse] at hmem
    obtain ⟨d, _, hdc⟩ := List.mem_map.mp hmem
    exact digitChar_ne_dash d hdc

theorem decChars_zero : decChars 0 = ['0'] := rfl

theorem decChars_ne_single_zero (n : Nat) (hn : n ≠ 0) : decChars n ≠ ['0'] := by
  rw [decChars, if_neg hn]
  intro h
  have h' : (Nat.digits 10 n).map digitChar = ['0'] := by
    have := congrArg List.reverse h
    simpa using this
  cases hdig : Nat.digits 10 n with
  | nil => rw [hdig] at h'; exact absurd h' (by simp)
  | cons d rest =>
    cases rest with
    | nil =>
      rw [hdig] at h'
      simp only [List.map_cons, List.map_nil, List.cons.injEq] at h'
      have hd10 : d < 10 := Nat.digits_lt_base (by norm_num)
        (by rw [hdig]; exact List.mem_cons_self d [])
      have hd0 : d = 0 := digitChar_inj d 0 hd10 (by omega) h'.1
      have hofd := Nat.ofDigits_digits 10 n
      rw [hdig, hd0] at hofd
      have hzero : (0 : Nat) = n := by simpa [Nat.ofDigits] using hofd
      exact hn hzero.symm
    | cons d2 rest2 =>
      rw [hdig] at h'
      exact absurd h' (by simp)

theorem decChars_inj (m n : Nat) (h : decChars m = decChars n) : m = n := by
  by_cases hm : m = 0 <;> by_cases hn : n = 0
  · rw [hm, hn]
  · exact absurd h.symm (by rw [hm, decChars_zero]; exact decChars_ne_single_zero n hn)
  · exact absurd h (by rw [hn, decChars_zero]; exact decChars_ne_single_zero m hm)
  · rw [decChars, decChars, if_neg hm, if_neg hn] at h
    have h' := List.reverse_injective h
    have hdig := map_digitChar_inj _ _
      (fun x hx => Nat.digits_lt_base (by norm_num) hx)
      (fun x hx => Nat.digits_lt_base (by norm_num) hx) h'
    have hof := congrArg (Nat.ofDigits 10) hdig
    rwa [Nat.ofDigits_digits, Nat.ofDigits_digits] at hof

theorem append_cons_dash_inj : ∀ a1 a2 b1 b2 : List Char, '-' ∉ a1 → '-' ∉ a2 →
    a1 ++ '-' :: b1 = a2 ++ '-' :: b2 → a1 = a2 ∧ b1 = b2 := by
  intro a1
  induction a1 with
  | nil =>
    intro a2 b1 b2 _ h2 h
    cases a2 with
    | nil =>
      simp only [List.nil_append, List.cons.injEq] at h
      exact ⟨rfl, h.2⟩
    | cons c a2' =>
      simp only [List.nil_append, List.cons_append, List.cons.injEq] at h
      exact absurd (h.1 ▸ List.mem_cons_self c a2') h2
  | cons c a1' ih =>
    intro a2 b1 b2 h1 h2 h
    cases a2 with
    | nil =>
      simp only [List.cons_append, List.nil_append, List.cons.injEq] at h
      exact absurd (h.1 ▸ List.mem_cons_self c a1') h1
    | cons c2 a2' =>
      simp only [List.cons_append, List.cons.injEq] at h
      obtain ⟨hc, hrest⟩ := h
      have hres := ih a2' b1 b2 (fun hm => h1 (List.mem_cons_of_mem c hm))
        (fun hm => h2 (List.mem_cons_of_mem c2 hm)) hrest
      exact ⟨by rw [hc, hres.1], hres.2⟩

/-- Counterexample to C9 as stated: the id is a pure function of the
observed clock value and random suffix, so an environment in which two
distinct `createTask` calls observe the same millisecond and the same
random draw produces the same id twice. -/
theorem c9_counterexample :
    ¬(∀ env : Nat → Nat × List Char,
        (∀ i : Nat, ∀ c ∈ (env i).2, c ∈ base36Chars) →
        ∀ i j : Nat, i ≠ j →
          genTaskId (env i).1 (env i).2 ≠ genTaskId (env j).1 (env j).2) := by
  intro h
  exact h (fun _ => (1700000000000, ['a']))
    (fun i c hc => by rw [List.mem_singleton] at hc; rw [hc]; decide)
    0 1 (by decide) rfl

/-- C9 as amended: two `createTask` calls return different id strings
whenever they observe different (`Date.now()`, random-suffix) pairs — in
particular calls in different milliseconds always differ — because the
decimal timestamp contains no `-` and the base-36 suffix cannot either,
so the id determines the pair.  (Only a call repeating both observations,
possible within one millisecond, can repeat an id.) -/
theorem c9_ids_distinct_amended :
    ∀ (t1 t2 : Nat) (r1 r2 : List Char),
      (∀ c ∈ r1, c ∈ base36Chars) → (∀ c ∈ r2, c ∈ base36Chars) →
      (t1, r1) ≠ (t2, r2) →
      genTaskId t1 r1 ≠ genTaskId t2 r2 := by
  intro t1 t2 r1 r2 _ _ hne heq
  have hdata : decChars t1 ++ '-' :: r1 = decChars t2 ++ '-' :: r2 :=
    congrArg String.data heq
  have hsplit := append_cons_dash_inj (decChars t1) (decChars t2) r1 r2
    (dash_not_mem_decChars t1) (dash_not_mem_decChars t2) hdata
  exact hne (by rw [decChars_inj t1 t2 hsplit.1, hsplit.2])

/-- Witness for amended C9: calls at clock values 1 and 2 with suffixes
drawn from the base-36 alphabet give different ids. -/
theorem c9_witness :
    (∀ c ∈ ['a'], c ∈ base36Chars) ∧ (∀ c ∈ ['b'], c ∈ base36Chars) ∧
    (((1, ['a']) : Nat × List Char) ≠ (2, ['b'])) ∧
    genTaskId 1 ['a'] ≠ genTaskId 2 ['b'] :=
  ⟨by decide, by decide, by decide,
   c9_ids_distinct_amended 1 2 ['a'] ['b'] (by decide) (by decide) (by decide)⟩

end DQ
